import Mathlib

/-!
Shallow embedding of the peer-to-peer signaling core of efelix8/efthon-connect:
the video-call hook (src/src/hooks/use-video-call.tsx) and the voice-chat hook
(src/unnamed/part_015, `useVoiceChat`).  Pure data is translated directly;
the stateful hook logic is modelled as explicit state-passing functions over a
`CallState` (respectively `VoiceState`) record, and the asynchronous handler
bodies are split at their first `await` into a synchronous phase and a
continuation so that interleavings with `leaveCall` can be stated.
-/

namespace Efthon

/-- A media track (`MediaStreamTrack`): identity plus its `kind`
("audio" or "video").  Track comparison in the source is object identity
(`s.track === track`); tracks here carry a unique numeric id. -/
structure Track where
  id : Nat
  kind : String
deriving DecidableEq, Repr

/-- A `MediaStream`: identity plus its list of tracks. -/
structure Stream where
  sid : Nat
  tracks : List Track
deriving DecidableEq, Repr

/-- An `RTCRtpSender`, as used by the hooks: the track it currently carries
(`replaceTrack` swaps it; it may be null). -/
structure Sender where
  track : Option Track
deriving DecidableEq, Repr

/-- The subset of `RTCSignalingState` the hooks inspect. -/
inductive SignalingState where
  | stable
  | haveLocalOffer
  | haveRemoteOffer
deriving DecidableEq, Repr

/-- `RTCPeerConnection.connectionState`. -/
inductive ConnectionState where
  | new
  | connecting
  | connected
  | disconnected
  | failed
  | closed
deriving DecidableEq, Repr

/-- The `type` field of an `RTCSessionDescriptionInit`. -/
inductive SdpType where
  | offer
  | answer
deriving DecidableEq, Repr

/-- A session description (offer or answer); `origin` records which user
created it. -/
structure SessionDesc where
  sdpType : SdpType
  origin : String
deriving DecidableEq, Repr

/-- An ICE candidate descriptor; `valid` models whether the platform's
`addIceCandidate` accepts it (it can legitimately reject). -/
structure IceCand where
  candId : Nat
  valid : Bool
deriving DecidableEq, Repr

/-- The `payload` of a `SignalMessage`: a session description for
offer/answer, an ICE candidate descriptor for ice-candidate. -/
inductive SignalPayload where
  | desc (d : SessionDesc)
  | cand (c : IceCand)
deriving DecidableEq, Repr

/-- The `type` tag of a `SignalMessage` in use-video-call.tsx
(the voice hook uses the subset without the screen-share tags). -/
inductive MsgType where
  | join
  | offer
  | answer
  | iceCandidate
  | leave
  | screenShareStart
  | screenShareStop
deriving DecidableEq, Repr

/-- `SignalMessage` from use-video-call.tsx. -/
structure SignalMessage where
  type : MsgType
  «from» : String
  «to» : Option String
  payload : Option SignalPayload
  nickname : Option String
deriving DecidableEq, Repr

/-- The state of one `RTCPeerConnection` as the hooks observe and drive it. -/
structure RTCConn where
  connId : Nat
  signalingState : SignalingState
  connectionState : ConnectionState
  senders : List Sender
  localDesc : Option SessionDesc
  remoteDesc : Option SessionDesc
  candidates : List Nat
deriving DecidableEq, Repr

/-- A `Peer` registry entry (interface Peer in both hooks). -/
structure Peer where
  id : String
  connection : RTCConn
  stream : Option Nat
  connectionType : Option String
  nickname : Option String
deriving DecidableEq, Repr

/-- The peer registry (`peersRef.current : Map<string, Peer>`), modelled as
an insertion-ordered association list. -/
abbrev Registry := List (String × Peer)

/-- `Map.get`. -/
def regGet : Registry → String → Option Peer
  | [], _ => none
  | (k', p) :: r, k => if k' = k then some p else regGet r k

/-- `Map.set`: replace the entry if the key is present, else append. -/
def regSet : Registry → String → Peer → Registry
  | [], k, p => [(k, p)]
  | (k', p') :: r, k, p => if k' = k then (k, p) :: r else (k', p') :: regSet r k p

/-- `Map.delete`. -/
def regDelete : Registry → String → Registry
  | [], _ => []
  | (k', p') :: r, k => if k' = k then regDelete r k else (k', p') :: regDelete r k

/-- The key list of the registry. -/
def regKeys (r : Registry) : List String := r.map (·.1)

/-- How many entries carry the given key. -/
def regKeyCount : Registry → String → Nat
  | [], _ => 0
  | (k', _) :: r, k => (if k' = k then 1 else 0) + regKeyCount r k

/-! ### Platform (WebRTC) operations, as the hooks use them -/

/-- `new RTCPeerConnection(ICE_SERVERS)` with a fresh identity. -/
def createPeerConnection (cid : Nat) : RTCConn :=
  { connId := cid
    signalingState := .stable
    connectionState := .new
    senders := []
    localDesc := none
    remoteDesc := none
    candidates := [] }

/-- `pc.addTrack(track, stream)` guarded by the source's duplicate check
`if (!senders.find(s => s.track === track))`. -/
def addTrackIfAbsent (c : RTCConn) (t : Track) : RTCConn :=
  if (c.senders.find? (fun sd => sd.track = some t)).isSome then c
  else { c with senders := c.senders ++ [{ track := some t }] }

/-- The track-attachment loop run by the join/offer handlers:
`currentLocalStream.getTracks().forEach(...)`; a missing local stream only
logs a warning. -/
def addLocalTracks (c : RTCConn) : Option Stream → RTCConn
  | none => c
  | some st => st.tracks.foldl addTrackIfAbsent c

/-- `pc.createOffer()`: deterministic description authored by `u`. -/
def createOffer (u : String) : SessionDesc := { sdpType := .offer, origin := u }

/-- `pc.createAnswer()`. -/
def createAnswer (u : String) : SessionDesc := { sdpType := .answer, origin := u }

/-- `pc.setLocalDescription(d)`. -/
def setLocalDescription (c : RTCConn) (d : SessionDesc) : RTCConn :=
  { c with
    localDesc := some d
    signalingState := match d.sdpType with
      | .offer => .haveLocalOffer
      | .answer => .stable }

/-- `pc.setRemoteDescription(offer)`. -/
def setRemoteOffer (c : RTCConn) (d : SessionDesc) : RTCConn :=
  { c with remoteDesc := some d, signalingState := .haveRemoteOffer }

/-- `pc.setRemoteDescription(answer)`: applying an answer on an already
stable connection throws (`InvalidStateError`); otherwise the connection
returns to stable. -/
def setRemoteAnswer (c : RTCConn) (d : SessionDesc) : Except Unit RTCConn :=
  if c.signalingState = .stable then .error ()
  else .ok { c with remoteDesc := some d, signalingState := .stable }

/-- `pc.addIceCandidate(c)`: the platform may reject a candidate. -/
def addIceCandidate (c : RTCConn) (cand : IceCand) : Except Unit RTCConn :=
  if cand.valid then .ok { c with candidates := c.candidates ++ [cand.candId] }
  else .error ()

/-! ### Video-call hook state (useVideoCall) -/

/-- The mutable state of one `useVideoCall` instance: the React state and
refs that the signaling logic reads and writes.  The published `peers` map
holds the same objects as `peersRef`, so it is not modelled separately. -/
structure CallState where
  isInCall : Bool
  localStream : Option Stream
  screenStream : Option Stream
  isScreenSharing : Bool
  peersRef : Registry
  isMuted : Bool
  isVideoOff : Bool
  isReconnecting : Bool
  channel : Option Nat
  userId : Option String
  nextConnId : Nat
deriving DecidableEq, Repr

/-- User-facing toast notifications (the `sonner` calls in
use-video-call.tsx; the voice hook never toasts). -/
inductive Toast where
  | loadingJoin
  | joinedCall
  | deviceError
  | loadingScreen
  | screenStarted
  | screenError
  | screenStopped
  | leftCall
  | peerConnected (p : String)
  | peerFailed (p : String)
  | peerDisconnected (p : String)
  | peerLeft (p : String)
deriving DecidableEq, Repr

/-- Result of running (the whole of) one `handleSignal` invocation:
the state afterwards, the broadcast messages it sent, the console logs it
wrote, and whether an uncaught error escaped the async handler. -/
structure HandlerResult where
  state : CallState
  sent : List SignalMessage
  logs : List String
  raised : Bool
deriving DecidableEq, Repr

/-- A handler invocation that returned before doing anything. -/
def noopResult (s : CallState) : HandlerResult :=
  { state := s, sent := [], logs := [], raised := false }

/-- Update the connection of the entry for `k`, if it is still present
(the source mutates the captured `peer.connection` object, which is the
registry's object exactly when the entry has not been removed). -/
def updateConn (s : CallState) (k : String) (f : RTCConn → RTCConn) : CallState :=
  match regGet s.peersRef k with
  | some p => { s with peersRef := regSet s.peersRef k { p with connection := f p.connection } }
  | none => s

/-- The synchronous prefix shared by the `join` and `offer` cases of
`handleSignal`: get-or-create the entry for the sender, then attach the
current local tracks. -/
def ensurePeerWithTracks (s : CallState) (src : String) : CallState :=
  let acc := match regGet s.peersRef src with
    | some p => (p, s)
    | none =>
        let pc := createPeerConnection s.nextConnId
        let p : Peer :=
          { id := src, connection := pc, stream := none
            connectionType := none, nickname := none }
        (p, { s with peersRef := regSet s.peersRef src p, nextConnId := s.nextConnId + 1 })
  let p := acc.1
  let s' := acc.2
  let p2 := { p with connection := addLocalTracks p.connection s'.localStream }
  { s' with peersRef := regSet s'.peersRef src p2 }

/-- The continuation of the `join` case after its first `await`
(`createOffer`/`setLocalDescription`, then send the offer when the channel
is still open).  `u` is the user id captured at the start of the handler. -/
def joinKont (s : CallState) (src u : String) : CallState × List SignalMessage :=
  let offer := createOffer u
  let s1 := updateConn s src (fun c => setLocalDescription c offer)
  match s1.channel with
  | some _ =>
      (s1, [{ type := .offer, «from» := u, «to» := some src
              payload := some (.desc offer), nickname := none }])
  | none => (s1, [])

/-- The continuation of the `offer` case after its first `await`:
set the remote offer, create and set the answer, send it.  A payload that
is not a session description makes `new RTCSessionDescription` throw. -/
def offerKont (s : CallState) (src u : String) (payload : Option SignalPayload) :
    CallState × List SignalMessage × Bool :=
  match payload with
  | some (.desc d) =>
      let s1 := updateConn s src (fun c => setRemoteOffer c d)
      let answer := createAnswer u
      let s2 := updateConn s1 src (fun c => setLocalDescription c answer)
      match s2.channel with
      | some _ =>
          (s2, [{ type := .answer, «from» := u, «to» := some src
                  payload := some (.desc answer), nickname := none }], false)
      | none => (s2, [], false)
  | _ => (s, [], true)

/-- `removePeer` from use-video-call.tsx: close the connection and delete
the entry; a no-op on an unknown key. -/
def removePeer (s : CallState) (peerId : String) : CallState :=
  match regGet s.peersRef peerId with
  | some _ => { s with peersRef := regDelete s.peersRef peerId }
  | none => s

/-- The `answer` case of `handleSignal` (it runs atomically up to its only
`await`): apply the remote description only when an entry exists and its
signaling state is not already stable. -/
def answerCase (s : CallState) (m : SignalMessage) : HandlerResult :=
  match regGet s.peersRef m.«from» with
  | some p =>
      if p.connection.signalingState = .stable then noopResult s
      else
        match m.payload with
        | some (.desc d) =>
            match setRemoteAnswer p.connection d with
            | .ok c =>
                { state := { s with peersRef := regSet s.peersRef m.«from» { p with connection := c } }
                  sent := [], logs := [], raised := false }
            | .error _ => { state := s, sent := [], logs := [], raised := true }
        | _ => { state := s, sent := [], logs := [], raised := true }
  | none => noopResult s

/-- The `ice-candidate` case of `handleSignal`: apply only when an entry
and a payload exist; a rejected candidate (or a malformed payload) is
caught and logged, never rethrown. -/
def iceCase (s : CallState) (m : SignalMessage) : HandlerResult :=
  match regGet s.peersRef m.«from», m.payload with
  | some p, some pl =>
      match pl with
      | .cand c =>
          match addIceCandidate p.connection c with
          | .ok conn =>
              { state := { s with peersRef := regSet s.peersRef m.«from» { p with connection := conn } }
                sent := [], logs := [], raised := false }
          | .error _ =>
              { state := s, sent := [], logs := ["Error adding ICE candidate"], raised := false }
      | .desc _ =>
          { state := s, sent := [], logs := ["Error adding ICE candidate"], raised := false }
  | _, _ => noopResult s

/-- A suspended handler continuation: what an in-flight `join`/`offer`
handler still has to do after its synchronous prefix ran. -/
inductive Kont where
  | joinK (src u : String)
  | offerK (src u : String) (payload : Option SignalPayload)
deriving DecidableEq, Repr

/-- Run a suspended continuation to completion. -/
def runKont (s : CallState) : Kont → CallState × List SignalMessage × Bool
  | .joinK src u =>
      let r := joinKont s src u
      (r.1, r.2, false)
  | .offerK src u pl => offerKont s src u pl

/-- The synchronous part of one `handleSignal` invocation: the loopback
and addressing filters, then the dispatch; `join`/`offer` run their
synchronous prefix and suspend, returning the pending continuation. -/
def handleDispatch (s : CallState) (m : SignalMessage) (u : String) :
    HandlerResult × Option Kont :=
  match m.type with
  | .join => (noopResult (ensurePeerWithTracks s m.«from»), some (.joinK m.«from» u))
  | .offer => (noopResult (ensurePeerWithTracks s m.«from»), some (.offerK m.«from» u m.payload))
  | .answer => (answerCase s m, none)
  | .iceCandidate => (iceCase s m, none)
  | .leave => (noopResult (removePeer s m.«from»), none)
  | .screenShareStart => (noopResult s, none)
  | .screenShareStop => (noopResult s, none)

/-- The filters at the top of `handleSignal`:
`if (!currentUserId || message.from === currentUserId) return;`
`if (message.to && message.to !== currentUserId) return;`
(JS truthiness: an empty-string user id or `to` is falsy). -/
def handlePhase1 (s : CallState) (m : SignalMessage) : HandlerResult × Option Kont :=
  match s.userId with
  | none => (noopResult s, none)
  | some u =>
      if u = "" then (noopResult s, none)
      else if m.«from» = u then (noopResult s, none)
      else
        match m.«to» with
        | some t =>
            if t = "" then handleDispatch s m u
            else if t = u then handleDispatch s m u
            else (noopResult s, none)
        | none => handleDispatch s m u

/-- One complete (uninterleaved) `handleSignal` invocation: the
synchronous part followed immediately by its continuation, if any. -/
def handleSignal (s : CallState) (m : SignalMessage) : HandlerResult :=
  match handlePhase1 s m with
  | (res, some k) =>
      let r := runKont res.state k
      { state := r.1, sent := res.sent ++ r.2.1, logs := res.logs, raised := res.raised || r.2.2 }
  | (res, none) => res

/-- Fold a list of received messages through the handler. -/
def processSignals (s : CallState) (msgs : List SignalMessage) : CallState :=
  msgs.foldl (fun st m => (handleSignal st m).state) s

/-! ### Video-call lifecycle: joinCall / leaveCall -/

/-- Outcome of `navigator.mediaDevices.getUserMedia` /
`getDisplayMedia`: a stream, or a device/permission failure. -/
abbrev DeviceResult := Except Unit Stream

/-- `joinCall` from use-video-call.tsx, parameterised by the device
acquisition outcome.  On failure the `catch` shows an error toast and the
state is left untouched; on success the local stream, the signaling
channel and `isInCall` are set (the `join` broadcast itself fires later,
from the subscription callback). -/
def joinCall (s : CallState) (roomSlug : String) (device : DeviceResult) :
    CallState × List Toast :=
  match s.userId with
  | none => (s, [])
  | some u =>
      if u = "" then (s, [])
      else if roomSlug = "" then (s, [])
      else
        match device with
        | .error _ => (s, [.loadingJoin, .deviceError])
        | .ok stream =>
            ({ s with localStream := some stream, channel := some 1, isInCall := true },
             [.loadingJoin])

/-- `leaveCall` from use-video-call.tsx: broadcast `leave`, close every
connection, clear the registry, stop and drop both streams, remove the
channel, reset every flag.  `userIdRef` is not cleared. -/
def leaveCall (s : CallState) : CallState × List SignalMessage :=
  let sent := match s.channel, s.userId with
    | some _, some u =>
        if u = "" then []
        else [{ type := .leave, «from» := u, «to» := none, payload := none, nickname := none }]
    | _, _ => []
  ({ s with
      peersRef := []
      localStream := none
      screenStream := none
      channel := none
      isInCall := false
      isMuted := false
      isVideoOff := false
      isScreenSharing := false
      isReconnecting := false },
   sent)

/-! ### Screen share -/

/-- `getSenders().find(s => s.track?.kind === "video")` followed by
`sender.replaceTrack(t)`: swap the track of the first sender currently
carrying a video-kind track; no sender found means no change. -/
def replaceFirstVideoTrack : List Sender → Option Track → List Sender
  | [], _ => []
  | sd :: rest, t =>
      match sd.track with
      | some tr =>
          if tr.kind = "video" then { track := t } :: rest
          else sd :: replaceFirstVideoTrack rest t
      | none => sd :: replaceFirstVideoTrack rest t

/-- Apply the video-track swap to every registry entry
(`peersRef.current.forEach(...)`). -/
def swapVideoTrackAll (r : Registry) (t : Option Track) : Registry :=
  r.map (fun e =>
    (e.1, { e.2 with connection :=
      { e.2.connection with senders := replaceFirstVideoTrack e.2.connection.senders t } }))

/-- `startScreenShare`, parameterised by the `getDisplayMedia` outcome:
on success store the screen stream, set `isScreenSharing`, replace the
outgoing video track on every peer connection in place, and broadcast
`screen-share-start`; on failure only an error toast. -/
def startScreenShare (s : CallState) (screenResult : DeviceResult) :
    CallState × List SignalMessage × List Toast :=
  match s.channel, s.userId with
  | some _, some u =>
      if u = "" then (s, [], [])
      else
        match screenResult with
        | .error _ => (s, [], [.loadingScreen, .screenError])
        | .ok screen =>
            let vt := (screen.tracks.filter (fun t : Track => t.kind = "video")).head?
            let s1 :=
              { s with
                  screenStream := some screen
                  isScreenSharing := true
                  peersRef := swapVideoTrackAll s.peersRef vt }
            (s1,
             [{ type := .screenShareStart, «from» := u, «to» := none
                payload := none, nickname := none }],
             [.loadingScreen, .screenStarted])
  | _, _ => (s, [], [])

/-- `stopScreenShare`: stop and drop the screen stream, swap every peer
connection's video sender back to the camera track (a no-op when the
camera track or the sender is absent), clear `isScreenSharing`, and
broadcast `screen-share-stop`. -/
def stopScreenShare (s : CallState) : CallState × List SignalMessage × List Toast :=
  let s1 := { s with screenStream := none }
  let s2 := match s1.localStream with
    | some ls =>
        match (ls.tracks.filter (fun t : Track => t.kind = "video")).head? with
        | some vt => { s1 with peersRef := swapVideoTrackAll s1.peersRef (some vt) }
        | none => s1
    | none => s1
  let s3 := { s2 with isScreenSharing := false }
  let sent := match s3.channel, s3.userId with
    | some _, some u =>
        if u = "" then []
        else [{ type := .screenShareStop, «from» := u, «to» := none
                payload := none, nickname := none }]
    | _, _ => []
  (s3, sent, [.screenStopped])

/-! ### Connection health: onconnectionstatechange -/

/-- Work the `onconnectionstatechange` callback defers with `setTimeout`. -/
inductive Scheduled where
  | detectType (delayMs : Nat) (peerId : String)
  | graceRemoval (delayMs : Nat) (peerId : String)
  | reconnectJoin (delayMs : Nat)
deriving DecidableEq, Repr

/-- The video hook's `pc.onconnectionstatechange` body for peer `peerId`
observing `st`: `connected` schedules connection-type detection;
`failed` runs `handleReconnect` (close and delete the stale entry, set
`isReconnecting`, schedule a fresh `join` broadcast after 2 s);
`disconnected` only schedules a removal check 5000 ms later. -/
def videoConnStateChange (s : CallState) (peerId : String) (st : ConnectionState) :
    CallState × List Scheduled × List Toast :=
  match st with
  | .connected => (s, [.detectType 1000 peerId], [.peerConnected peerId])
  | .failed =>
      let s1 := match regGet s.peersRef peerId with
        | some _ => { s with peersRef := regDelete s.peersRef peerId }
        | none => s
      ({ s1 with isReconnecting := true }, [.reconnectJoin 2000], [.peerFailed peerId])
  | .disconnected => (s, [.graceRemoval 5000 peerId], [.peerDisconnected peerId])
  | _ => (s, [], [])

/-- The body of the 5-second grace timer: remove the entry only if it
still exists and its connection is still disconnected. -/
def fireGraceRemoval (s : CallState) (peerId : String) : CallState :=
  match regGet s.peersRef peerId with
  | some p =>
      if p.connection.connectionState = .disconnected then removePeer s peerId else s
  | none => s

/-! ### Event-interleaving semantics

`handleSignal` is `async`: between its synchronous prefix and its
continuation, other events (in particular `leaveCall`) may run.  A trace
state is the hook state plus the queue of pending continuations; events
are a successful `joinCall`, a message delivery (possible only while the
channel exists), the resumption of a pending continuation, and
`leaveCall`. -/

structure TraceState where
  call : CallState
  pending : List Kont
deriving DecidableEq, Repr

inductive Ev where
  | joinEv (roomSlug : String) (stream : Stream)
  | deliver (m : SignalMessage)
  | resume (i : Nat)
  | leaveEv
deriving DecidableEq, Repr

/-- One event step.  Messages are delivered only while the channel is
subscribed; resuming takes a pending continuation out of the queue;
`leaveCall` leaves in-flight continuations pending (they are promises
that will still complete). -/
def stepEv (ts : TraceState) : Ev → TraceState
  | .joinEv slug stream => { ts with call := (joinCall ts.call slug (.ok stream)).1 }
  | .deliver m =>
      match ts.call.channel with
      | some _ =>
          let r := handlePhase1 ts.call m
          { call := r.1.state, pending := ts.pending ++ r.2.toList }
      | none => ts
  | .resume i =>
      match ts.pending.get? i with
      | some k => { call := (runKont ts.call k).1, pending := ts.pending.eraseIdx i }
      | none => ts
  | .leaveEv => { ts with call := (leaveCall ts.call).1 }

/-- The idle hook state for user `u`: not in a call, no channel, no
streams, empty registry. -/
def initCall (u : String) : CallState :=
  { isInCall := false
    localStream := none
    screenStream := none
    isScreenSharing := false
    peersRef := []
    isMuted := false
    isVideoOff := false
    isReconnecting := false
    channel := none
    userId := some u
    nextConnId := 0 }

def initTrace (u : String) : TraceState := { call := initCall u, pending := [] }

/-- Trace states reachable from some idle state by event steps. -/
inductive Reach : TraceState → Prop where
  | init (u : String) : Reach (initTrace u)
  | step {ts : TraceState} (h : Reach ts) (e : Ev) : Reach (stepEv ts e)

/-! ### Voice-chat hook (useVoiceChat, src/unnamed/part_015) -/

/-- The state of one `useVoiceChat` instance.  `db` models the
`voice_room_participants` rows (room id, user id) this client wrote. -/
structure VoiceState where
  currentRoom : Option String
  isConnected : Bool
  isMuted : Bool
  isDeafened : Bool
  peersRef : Registry
  localStream : Option Stream
  channel : Option Nat
  userId : Option String
  nextConnId : Nat
  db : List (String × String)
deriving DecidableEq, Repr

/-- `removePeer` from the voice hook: close and delete, no-op when
absent. -/
def voiceRemovePeer (v : VoiceState) (peerId : String) : VoiceState :=
  match regGet v.peersRef peerId with
  | some _ => { v with peersRef := regDelete v.peersRef peerId }
  | none => v

/-- The voice hook's `pc.onconnectionstatechange`: on `failed` OR
`disconnected` it removes the peer entry immediately; no grace timer. -/
def voiceConnStateChange (v : VoiceState) (peerId : String) (st : ConnectionState) :
    VoiceState :=
  if st = .failed ∨ st = .disconnected then voiceRemovePeer v peerId else v

/-- `joinRoom (room)` from the voice hook, parameterised by the
`getUserMedia` outcome.  On failure the `catch` only writes a console log
(no toast: the voice hook has no user-facing notifier); on success the
local stream is stored, a participant row is inserted, and the signaling
channel is created. -/
def joinRoom (v : VoiceState) (room : String) (device : DeviceResult) :
    VoiceState × List Toast × List String :=
  match v.userId with
  | none => (v, [], [])
  | some u =>
      if u = "" then (v, [], [])
      else
        match device with
        | .error _ => (v, [], ["Error joining voice room"])
        | .ok stream =>
            ({ v with
                localStream := some stream
                db := v.db ++ [(room, u)]
                channel := some 1
                currentRoom := some room
                isConnected := true },
             [], [])

/-! ### Registry lemmas -/

theorem regGet_regSet_self (r : Registry) (k : String) (p : Peer) :
    regGet (regSet r k p) k = some p := by
  induction r with
  | nil => simp [regSet, regGet]
  | cons e r ih =>
      obtain ⟨k', p'⟩ := e
      by_cases h : k' = k <;> simp [regSet, regGet, h, ih]

theorem regGet_regSet_ne (r : Registry) (k k2 : String) (p : Peer) (h : k ≠ k2) :
    regGet (regSet r k p) k2 = regGet r k2 := by
  induction r with
  | nil => simp [regSet, regGet, h]
  | cons e r ih =>
      obtain ⟨k', p'⟩ := e
      by_cases h1 : k' = k
      · subst h1
        simp [regSet, regGet, h]
      · have h2' : k2 ≠ k := fun e => h e.symm
        by_cases h2 : k' = k2 <;> simp [regSet, regGet, h1, h2, h2', ih]

theorem regKeys_regSet_of_present (r : Registry) (k : String) (p : Peer)
    (h : (regGet r k).isSome) : regKeys (regSet r k p) = regKeys r := by
  induction r with
  | nil => simp [regGet] at h
  | cons e r ih =>
      obtain ⟨k', p'⟩ := e
      by_cases h1 : k' = k
      · subst h1
        simp [regSet, regKeys]
      · simp [regGet, h1] at h
        simp [regSet, regKeys, h1] at ih ⊢
        exact ih h

theorem regKeyCount_eq_zero_of_get_none (r : Registry) (k : String)
    (h : regGet r k = none) : regKeyCount r k = 0 := by
  induction r with
  | nil => rfl
  | cons e r ih =>
      obtain ⟨k', p'⟩ := e
      by_cases h1 : k' = k
      · simp [regGet, h1] at h
      · simp [regGet, h1] at h
        simp [regKeyCount, h1, ih h]

theorem regKeyCount_regSet_present (r : Registry) (k : String) (p : Peer)
    (h : (regGet r k).isSome) : regKeyCount (regSet r k p) k = regKeyCount r k := by
  induction r with
  | nil => simp [regGet] at h
  | cons e r ih =>
      obtain ⟨k', p'⟩ := e
      by_cases h1 : k' = k
      · subst h1
        simp [regSet, regKeyCount]
      · simp [regGet, h1] at h
        simp [regSet, regKeyCount, h1, ih h]

theorem regKeyCount_regSet_absent (r : Registry) (k : String) (p : Peer)
    (h : regGet r k = none) : regKeyCount (regSet r k p) k = regKeyCount r k + 1 := by
  induction r with
  | nil => simp [regSet, regKeyCount]
  | cons e r ih =>
      obtain ⟨k', p'⟩ := e
      by_cases h1 : k' = k
      · simp [regGet, h1] at h
      · simp [regGet, h1] at h
        simp [regSet, regKeyCount, h1, ih h]

theorem regGet_regDelete_self (r : Registry) (k : String) :
    regGet (regDelete r k) k = none := by
  induction r with
  | nil => rfl
  | cons e r ih =>
      obtain ⟨k', p'⟩ := e
      by_cases h1 : k' = k <;> simp [regDelete, regGet, h1, ih]

theorem regGet_swapVideoTrackAll (r : Registry) (t : Option Track) (k : String) :
    regGet (swapVideoTrackAll r t) k = (regGet r k).map
      (fun p => { p with connection :=
        { p.connection with senders := replaceFirstVideoTrack p.connection.senders t } }) := by
  induction r with
  | nil => simp [swapVideoTrackAll, regGet]
  | cons e r ih =>
      obtain ⟨k', p'⟩ := e
      by_cases h1 : k' = k
      · simp [swapVideoTrackAll, regGet, h1]
      · simp only [swapVideoTrackAll, regGet, List.map_cons, if_neg h1]
        simpa [swapVideoTrackAll] using ih

theorem regKeys_swapVideoTrackAll (r : Registry) (t : Option Track) :
    regKeys (swapVideoTrackAll r t) = regKeys r := by
  induction r with
  | nil => rfl
  | cons e r ih =>
      simp only [swapVideoTrackAll, regKeys, List.map_cons, List.cons.injEq]
      exact ⟨trivial, by simp [swapVideoTrackAll, regKeys] at ih ⊢⟩

theorem regSet_regSet (r : Registry) (k : String) (p q : Peer) :
    regSet (regSet r k p) k q = regSet r k q := by
  induction r with
  | nil => simp [regSet]
  | cons e r ih =>
      obtain ⟨k', p'⟩ := e
      by_cases h1 : k' = k <;> simp [regSet, h1, ih]

/-! ### Track-attachment lemmas -/

theorem addTrackIfAbsent_connId (c : RTCConn) (t : Track) :
    (addTrackIfAbsent c t).connId = c.connId := by
  unfold addTrackIfAbsent; split <;> rfl

theorem addTrackIfAbsent_mem (c : RTCConn) (t : Track) (sd : Sender)
    (h : sd ∈ c.senders) : sd ∈ (addTrackIfAbsent c t).senders := by
  unfold addTrackIfAbsent; split
  · exact h
  · exact List.mem_append_left _ h

theorem addTrackIfAbsent_has (c : RTCConn) (t : Track) :
    ∃ sd ∈ (addTrackIfAbsent c t).senders, sd.track = some t := by
  unfold addTrackIfAbsent
  split
  · next h =>
      obtain ⟨sd, hmem, hsd⟩ := List.find?_isSome.mp h
      exact ⟨sd, hmem, of_decide_eq_true hsd⟩
  · exact ⟨{ track := some t }, by simp, rfl⟩

theorem foldl_addTrack_connId (l : List Track) (c : RTCConn) :
    (l.foldl addTrackIfAbsent c).connId = c.connId := by
  induction l generalizing c with
  | nil => rfl
  | cons t l ih => rw [List.foldl_cons, ih, addTrackIfAbsent_connId]

theorem foldl_addTrack_mem (l : List Track) (c : RTCConn) (sd : Sender)
    (h : sd ∈ c.senders) : sd ∈ (l.foldl addTrackIfAbsent c).senders := by
  induction l generalizing c with
  | nil => exact h
  | cons t l ih => exact ih _ (addTrackIfAbsent_mem c t sd h)

theorem foldl_addTrack_has (l : List Track) (c : RTCConn) :
    ∀ t ∈ l, ∃ sd ∈ (l.foldl addTrackIfAbsent c).senders, sd.track = some t := by
  induction l generalizing c with
  | nil => intro t ht; cases ht
  | cons t0 l ih =>
      intro t ht
      rcases List.mem_cons.mp ht with h | h
      · subst h
        obtain ⟨sd, hmem, hsd⟩ := addTrackIfAbsent_has c t
        exact ⟨sd, foldl_addTrack_mem l _ sd hmem, hsd⟩
      · exact ih _ t h

theorem addLocalTracks_connId (c : RTCConn) (st : Option Stream) :
    (addLocalTracks c st).connId = c.connId := by
  cases st with
  | none => rfl
  | some s => exact foldl_addTrack_connId s.tracks c

theorem addLocalTracks_has (c : RTCConn) (st : Stream) :
    ∀ t ∈ st.tracks, ∃ sd ∈ (addLocalTracks c (some st)).senders, sd.track = some t :=
  foldl_addTrack_has st.tracks c

/-! ### get-or-create and update lemmas -/

theorem ensure_present (s : CallState) (src : String) (p : Peer)
    (h : regGet s.peersRef src = some p) :
    ensurePeerWithTracks s src =
      { s with peersRef :=
          regSet s.peersRef src { p with connection := addLocalTracks p.connection s.localStream } } := by
  simp [ensurePeerWithTracks, h]

theorem ensure_absent (s : CallState) (src : String)
    (h : regGet s.peersRef src = none) :
    ensurePeerWithTracks s src =
      { s with
          peersRef :=
            regSet s.peersRef src
              { id := src
                connection := addLocalTracks (createPeerConnection s.nextConnId) s.localStream
                stream := none, connectionType := none, nickname := none }
          nextConnId := s.nextConnId + 1 } := by
  simp [ensurePeerWithTracks, h, regSet_regSet]

theorem updateConn_present (s : CallState) (k : String) (p : Peer) (f : RTCConn → RTCConn)
    (h : regGet s.peersRef k = some p) :
    updateConn s k f =
      { s with peersRef := regSet s.peersRef k { p with connection := f p.connection } } := by
  simp [updateConn, h]

theorem updateConn_absent (s : CallState) (k : String) (f : RTCConn → RTCConn)
    (h : regGet s.peersRef k = none) : updateConn s k f = s := by
  simp [updateConn, h]

/-! ### Handler-path lemmas -/

theorem handlePhase1_eq (s : CallState) (m : SignalMessage) :
    handlePhase1 s m = (noopResult s, none) ∨
      ∃ u, s.userId = some u ∧ u ≠ "" ∧ m.«from» ≠ u ∧
        handlePhase1 s m = handleDispatch s m u := by
  cases hu : s.userId with
  | none => exact Or.inl (by simp [handlePhase1, hu])
  | some u =>
      by_cases h1 : u = ""
      · exact Or.inl (by simp [handlePhase1, hu, h1])
      · by_cases h2 : m.«from» = u
        · exact Or.inl (by simp [handlePhase1, hu, h1, h2])
        · cases hto : m.«to» with
          | none => exact Or.inr ⟨u, rfl, h1, h2, by simp [handlePhase1, hu, h1, h2, hto]⟩
          | some t =>
              by_cases h3 : t = ""
              · exact Or.inr ⟨u, rfl, h1, h2, by simp [handlePhase1, hu, h1, h2, hto, h3]⟩
              · by_cases h4 : t = u
                · exact Or.inr ⟨u, rfl, h1, h2, by simp [handlePhase1, hu, h1, h2, hto, h3, h4]⟩
                · exact Or.inl (by simp [handlePhase1, hu, h1, h2, hto, h3, h4])

theorem handlePhase1_eq_dispatch (s : CallState) (m : SignalMessage) (u : String)
    (hu : s.userId = some u) (h1 : u ≠ "") (h2 : m.«from» ≠ u)
    (hto : m.«to» = none ∨ m.«to» = some u) :
    handlePhase1 s m = handleDispatch s m u := by
  rcases hto with hto | hto <;> simp [handlePhase1, hu, h1, h2, hto]

theorem handleSignal_eq_res (s : CallState) (m : SignalMessage) (res : HandlerResult)
    (h : handlePhase1 s m = (res, none)) : handleSignal s m = res := by
  simp [handleSignal, h]

theorem handleSignal_eq_kont (s : CallState) (m : SignalMessage) (res : HandlerResult)
    (k : Kont) (h : handlePhase1 s m = (res, some k)) :
    handleSignal s m =
      { state := (runKont res.state k).1
        sent := res.sent ++ (runKont res.state k).2.1
        logs := res.logs
        raised := res.raised || (runKont res.state k).2.2 } := by
  simp [handleSignal, h]

/-! ### Claim theorems -/

/-- Claim C10: in the video call hook, receiving a signaling message of
type `screen-share-start` or `screen-share-stop` has no effect on the
receiver: the dispatch has no case for these types, so the registry,
every connection, and all local flags (including the receiver's
`isScreenSharing`) are unchanged, nothing is sent, and nothing is
raised. -/
theorem c10_screen_share_signals_ignored (s : CallState) (m : SignalMessage)
    (h : m.type = .screenShareStart ∨ m.type = .screenShareStop) :
    handleSignal s m = noopResult s := by
  have hd : ∀ u, handleDispatch s m u = (noopResult s, none) := by
    intro u
    rcases h with h | h <;> simp [handleDispatch, h]
  rcases handlePhase1_eq s m with hp | ⟨u, _, _, _, hp⟩
  · exact handleSignal_eq_res s m _ hp
  · exact handleSignal_eq_res s m _ (hp.trans (hd u))

/-- Witness for C10 at a concrete state and message. -/
theorem c10_witness :
    handleSignal (initCall "x")
        { type := .screenShareStart, «from» := "a", «to» := none
          payload := none, nickname := none } =
      noopResult (initCall "x") :=
  c10_screen_share_signals_ignored _ _ (Or.inl rfl)

/-- Claim C3 (amended): a received message whose `from` equals the local
identity, or whose `to` is present as a NON-EMPTY string different from
the local identity, is discarded before any state transition: the
handler returns with the state unchanged, nothing sent, nothing logged
and nothing raised.  (The source's truthiness check lets a present but
empty `to` through, which is the single correction to the claim.) -/
theorem c3_filtered_messages_noop (s : CallState) (m : SignalMessage) (u : String)
    (hu : s.userId = some u)
    (h : m.«from» = u ∨ ∃ t, m.«to» = some t ∧ t ≠ "" ∧ t ≠ u) :
    handleSignal s m = noopResult s := by
  apply handleSignal_eq_res
  by_cases h1 : u = ""
  · simp [handlePhase1, hu, h1]
  · rcases h with h | ⟨t, ht, ht1, ht2⟩
    · simp [handlePhase1, hu, h1, h]
    · by_cases h2 : m.«from» = u
      · simp [handlePhase1, hu, h1, h2]
      · simp [handlePhase1, hu, h1, h2, ht, ht1, ht2]

/-- Witness for C3 (amended) at a concrete state and message. -/
theorem c3_witness :
    handleSignal (initCall "x")
        { type := .join, «from» := "a", «to» := some "b"
          payload := none, nickname := none } =
      noopResult (initCall "x") :=
  c3_filtered_messages_noop _ _ "x" rfl
    (Or.inr ⟨"b", rfl, by decide, by decide⟩)

/-- Claim C3, counterexample to the claim as stated: a `join` whose `to`
is present (the empty string) and differs from the local identity `"x"`
is nevertheless processed: the handler creates a registry entry for the
sender, so it did NOT return before a state transition. -/
theorem c3_counterexample_empty_to_is_processed :
    (let s : CallState := { initCall "x" with isInCall := true, channel := some 1 }
     let m : SignalMessage :=
       { type := .join, «from» := "a", «to» := some "", payload := none, nickname := none }
     m.«to» = some "" ∧ some "" ≠ some "x" ∧ m.«from» ≠ "x" ∧
       regGet s.peersRef "a" = none ∧
       (regGet (handleSignal s m).state.peersRef "a").isSome = true) := by
  decide

/-- Claim C7: an `answer` from peer P is applied only when an entry for P
exists and its connection's signaling state is not already stable; a
duplicate or late answer arriving while the state is stable (or with no
entry) changes nothing, so the double-apply branch of
`setRemoteDescription`, which would throw, is unreachable. -/
theorem c7_answer_guard (s : CallState) (m : SignalMessage) (u : String)
    (hu : s.userId = some u) (h1 : u ≠ "") (h2 : m.«from» ≠ u)
    (hto : m.«to» = none ∨ m.«to» = some u) (hty : m.type = .answer) :
    (handleSignal s m).sent = [] ∧
    (regGet s.peersRef m.«from» = none → handleSignal s m = noopResult s) ∧
    (∀ p, regGet s.peersRef m.«from» = some p →
      p.connection.signalingState = .stable → handleSignal s m = noopResult s) ∧
    (∀ p d, regGet s.peersRef m.«from» = some p →
      p.connection.signalingState ≠ .stable → m.payload = some (.desc d) →
      (handleSignal s m).raised = false ∧
      ∃ c, setRemoteAnswer p.connection d = .ok c ∧
        (handleSignal s m).state =
          { s with peersRef := regSet s.peersRef m.«from» { p with connection := c } }) := by
  have hd : handleSignal s m = answerCase s m :=
    handleSignal_eq_res s m _
      ((handlePhase1_eq_dispatch s m u hu h1 h2 hto).trans (by simp [handleDispatch, hty]))
  refine ⟨?_, ?_, ?_, ?_⟩
  · rw [hd]
    unfold answerCase
    cases hget : regGet s.peersRef m.«from» with
    | none => rfl
    | some p =>
        by_cases hst : p.connection.signalingState = .stable
        · simp [hst, noopResult]
        · cases hpl : m.payload with
          | none => simp [hst]
          | some pl =>
              cases pl with
              | desc d => simp [hst, setRemoteAnswer]
              | cand c => simp [hst]
  · intro hget
    rw [hd]
    unfold answerCase
    rw [hget]
  · intro p hget hst
    rw [hd]
    unfold answerCase
    rw [hget]
    simp [hst, noopResult]
  · intro p d hget hst hpl
    rw [hd]
    unfold answerCase
    rw [hget, hpl]
    simp only [if_neg hst]
    refine ⟨?_, ?_⟩
    · simp [hst, setRemoteAnswer]
    · exact ⟨{ p.connection with remoteDesc := some d, signalingState := .stable },
        by simp [setRemoteAnswer, hst], by simp [setRemoteAnswer, hst]⟩

/-- Witness for C7: a late answer at a concrete stable entry changes
nothing. -/
theorem c7_witness :
    (let conn : RTCConn :=
      { createPeerConnection 0 with signalingState := .stable }
     let p : Peer :=
      { id := "a", connection := conn, stream := none
        connectionType := none, nickname := none }
     let s : CallState := { initCall "x" with peersRef := [("a", p)] }
     let m : SignalMessage :=
      { type := .answer, «from» := "a", «to» := some "x"
        payload := some (.desc { sdpType := .answer, origin := "a" }), nickname := none }
     handleSignal s m = noopResult s) := by
  intro conn p s m
  exact (c7_answer_guard s m "x" rfl (by decide) (by decide) (Or.inr rfl) rfl).2.2.1 p
    (by decide) (by decide)

theorem iceCase_props (s : CallState) (m : SignalMessage) :
    (iceCase s m).raised = false ∧ (iceCase s m).sent = [] ∧
    regKeys (iceCase s m).state.peersRef = regKeys s.peersRef ∧
    (iceCase s m).state.isInCall = s.isInCall ∧
    (iceCase s m).state.channel = s.channel := by
  unfold iceCase
  cases hget : regGet s.peersRef m.«from» with
  | none =>
      cases m.payload with
      | none => simp [noopResult]
      | some pl => simp [noopResult]
  | some p =>
      cases hpl : m.payload with
      | none => simp [noopResult]
      | some pl =>
          cases pl with
          | desc d => simp
          | cand c =>
              unfold addIceCandidate
              by_cases hv : c.valid
              · have hs : (regGet s.peersRef m.«from»).isSome := by rw [hget]; rfl
                simp [hv, regKeys_regSet_of_present _ _ _ hs]
              · simp [hv]

/-- Claim C8: processing an `ice-candidate` message never throws out of
the handler and never terminates the session; with no registry entry for
the sender it is dropped with no state change; with an entry, the
candidate is applied, and a rejected apply is caught and logged with the
state left unchanged. -/
theorem c8_ice_candidate_safe (s : CallState) (m : SignalMessage)
    (hty : m.type = .iceCandidate) :
    (handleSignal s m).raised = false ∧
    (handleSignal s m).sent = [] ∧
    regKeys (handleSignal s m).state.peersRef = regKeys s.peersRef ∧
    (handleSignal s m).state.isInCall = s.isInCall ∧
    (handleSignal s m).state.channel = s.channel ∧
    (∀ u, s.userId = some u → u ≠ "" → m.«from» ≠ u →
      (m.«to» = none ∨ m.«to» = some u) →
      (regGet s.peersRef m.«from» = none → handleSignal s m = noopResult s) ∧
      (∀ p c, regGet s.peersRef m.«from» = some p → m.payload = some (.cand c) →
        (c.valid = true →
          (handleSignal s m).state =
            { s with peersRef :=
                (regSet s.peersRef m.«from»
                  { p with connection :=
                      { p.connection with candidates := p.connection.candidates ++ [c.candId] } }) }) ∧
        (c.valid = false →
          (handleSignal s m).state = s ∧
          (handleSignal s m).logs = ["Error adding ICE candidate"]))) := by
  have hcase : handleSignal s m = noopResult s ∨ handleSignal s m = iceCase s m := by
    rcases handlePhase1_eq s m with hp | ⟨u, _, _, _, hp⟩
    · exact Or.inl (handleSignal_eq_res s m _ hp)
    · exact Or.inr (handleSignal_eq_res s m _ (hp.trans (by simp [handleDispatch, hty])))
  have hbase : (handleSignal s m).raised = false ∧ (handleSignal s m).sent = [] ∧
      regKeys (handleSignal s m).state.peersRef = regKeys s.peersRef ∧
      (handleSignal s m).state.isInCall = s.isInCall ∧
      (handleSignal s m).state.channel = s.channel := by
    rcases hcase with h | h
    · rw [h]; exact ⟨rfl, rfl, rfl, rfl, rfl⟩
    · rw [h]; exact iceCase_props s m
  refine ⟨hbase.1, hbase.2.1, hbase.2.2.1, hbase.2.2.2.1, hbase.2.2.2.2, ?_⟩
  intro u hu h1 h2 hto
  have hd : handleSignal s m = iceCase s m :=
    handleSignal_eq_res s m _
      ((handlePhase1_eq_dispatch s m u hu h1 h2 hto).trans (by simp [handleDispatch, hty]))
  constructor
  · intro hget
    rw [hd]
    unfold iceCase
    rw [hget]
  · intro p c hget hpl
    constructor
    · intro hv
      rw [hd]
      unfold iceCase
      rw [hget, hpl]
      simp [addIceCandidate, hv]
    · intro hv
      rw [hd]
      unfold iceCase
      rw [hget, hpl]
      simp [addIceCandidate, hv]

/-- Witness for C8: an invalid candidate at a concrete entry is caught,
logged and dropped. -/
theorem c8_witness :
    (let p : Peer :=
      { id := "a", connection := createPeerConnection 0, stream := none
        connectionType := none, nickname := none }
     let s : CallState := { initCall "x" with peersRef := [("a", p)] }
     let m : SignalMessage :=
      { type := .iceCandidate, «from» := "a", «to» := some "x"
        payload := some (.cand { candId := 7, valid := false }), nickname := none }
     (handleSignal s m).raised = false ∧
       (handleSignal s m).state = s ∧
       (handleSignal s m).logs = ["Error adding ICE candidate"]) := by
  intro p s m
  have h := c8_ice_candidate_safe s m rfl
  have h2 := ((h.2.2.2.2.2 "x" rfl (by decide) (by decide) (Or.inr rfl)).2 p
    { candId := 7, valid := false } (by decide) rfl).2 rfl
  exact ⟨h.1, h2.1, h2.2⟩

theorem setLocalDescription_connId (c : RTCConn) (d : SessionDesc) :
    (setLocalDescription c d).connId = c.connId := rfl

theorem setLocalDescription_senders (c : RTCConn) (d : SessionDesc) :
    (setLocalDescription c d).senders = c.senders := rfl

/-- Claim C1: receiving `join` from a peer P other than self creates or
reuses the registry entry for P, attaches the current local tracks, and
sends exactly one `offer` with from = self and to = P; receiving one's
own broadcast `join` does nothing, so per pair only the existing member
ever offers toward the newcomer. -/
theorem c1_join_triggers_single_offer (s : CallState) (m : SignalMessage) (u : String)
    (hu : s.userId = some u) (h1 : u ≠ "") (hch : s.channel.isSome = true)
    (hty : m.type = .join) :
    (m.«from» = u → handleSignal s m = noopResult s) ∧
    (m.«from» ≠ u → (m.«to» = none ∨ m.«to» = some u) →
      ∃ p', regGet (handleSignal s m).state.peersRef m.«from» = some p' ∧
        (handleSignal s m).sent =
          [{ type := .offer, «from» := u, «to» := some m.«from»
             payload := some (.desc (createOffer u)), nickname := none }] ∧
        (handleSignal s m).raised = false ∧
        (∀ p0, regGet s.peersRef m.«from» = some p0 →
          p'.connection.connId = p0.connection.connId) ∧
        (regGet s.peersRef m.«from» = none → p'.connection.connId = s.nextConnId) ∧
        (∀ ls, s.localStream = some ls → ∀ t ∈ ls.tracks,
          ∃ sd ∈ p'.connection.senders, sd.track = some t)) := by
  constructor
  · intro hf
    exact handleSignal_eq_res s m _ (by simp [handlePhase1, hu, h1, hf])
  · intro h2 hto
    obtain ⟨ch, hch'⟩ := Option.isSome_iff_exists.mp hch
    have hp1 : handlePhase1 s m =
        (noopResult (ensurePeerWithTracks s m.«from»), some (.joinK m.«from» u)) :=
      (handlePhase1_eq_dispatch s m u hu h1 h2 hto).trans (by simp [handleDispatch, hty])
    have hall := handleSignal_eq_kont s m _ _ hp1
    cases hget : regGet s.peersRef m.«from» with
    | some p0 =>
        have hs1 := ensure_present s m.«from» p0 hget
        have hcomp : handleSignal s m =
            { state := { s with peersRef :=
                (regSet s.peersRef m.«from»
                  { id := p0.id
                    connection := setLocalDescription
                      (addLocalTracks p0.connection s.localStream) (createOffer u)
                    stream := p0.stream, connectionType := p0.connectionType
                    nickname := p0.nickname }) }
              sent := [{ type := .offer, «from» := u, «to» := some m.«from»
                         payload := some (.desc (createOffer u)), nickname := none }]
              logs := []
              raised := false } := by
          rw [hall]
          simp [noopResult, runKont, joinKont, hs1, updateConn,
            regGet_regSet_self, regSet_regSet, hch']
        refine ⟨{ id := p0.id
                  connection := setLocalDescription
                    (addLocalTracks p0.connection s.localStream) (createOffer u)
                  stream := p0.stream, connectionType := p0.connectionType
                  nickname := p0.nickname },
          ?_, ?_, ?_, ?_, ?_, ?_⟩
        · rw [hcomp]
          exact regGet_regSet_self _ _ _
        · rw [hcomp]
        · rw [hcomp]
        · intro q0 hq0
          injection hq0 with hq
          subst hq
          exact addLocalTracks_connId p0.connection s.localStream
        · intro hnone
          exact Option.noConfusion hnone
        · intro ls hls t ht
          show ∃ sd ∈ (addLocalTracks p0.connection s.localStream).senders, sd.track = some t
          rw [hls]
          exact addLocalTracks_has p0.connection ls t ht
    | none =>
        have hs1 := ensure_absent s m.«from» hget
        have hcomp : handleSignal s m =
            { state := { s with
                peersRef :=
                  (regSet s.peersRef m.«from»
                    { id := m.«from»
                      connection := setLocalDescription
                        (addLocalTracks (createPeerConnection s.nextConnId) s.localStream)
                        (createOffer u)
                      stream := none, connectionType := none, nickname := none })
                nextConnId := s.nextConnId + 1 }
              sent := [{ type := .offer, «from» := u, «to» := some m.«from»
                         payload := some (.desc (createOffer u)), nickname := none }]
              logs := []
              raised := false } := by
          rw [hall]
          simp [noopResult, runKont, joinKont, hs1, updateConn,
            regGet_regSet_self, regSet_regSet, hch']
        refine ⟨{ id := m.«from»
                  connection := setLocalDescription
                    (addLocalTracks (createPeerConnection s.nextConnId) s.localStream)
                    (createOffer u)
                  stream := none, connectionType := none, nickname := none },
          ?_, ?_, ?_, ?_, ?_, ?_⟩
        · rw [hcomp]
          exact regGet_regSet_self _ _ _
        · rw [hcomp]
        · rw [hcomp]
        · intro q0 hq0
          exact Option.noConfusion hq0
        · intro _
          exact addLocalTracks_connId (createPeerConnection s.nextConnId) s.localStream
        · intro ls hls t ht
          show ∃ sd ∈ (addLocalTracks (createPeerConnection s.nextConnId) s.localStream).senders,
            sd.track = some t
          rw [hls]
          exact addLocalTracks_has (createPeerConnection s.nextConnId) ls t ht

/-- Witness for C1: user x, active with a local stream, receives
`join` from a; exactly one offer x→a is produced, and x ignores its own
join broadcast. -/
theorem c1_witness :
    (let ls : Stream := { sid := 0, tracks := [{ id := 0, kind := "audio" }] }
     let s : CallState :=
       { initCall "x" with isInCall := true, channel := some 1, localStream := some ls }
     let mJoin : SignalMessage :=
       { type := .join, «from» := "a", «to» := none, payload := none, nickname := none }
     let mOwn : SignalMessage :=
       { type := .join, «from» := "x", «to» := none, payload := none, nickname := none }
     handleSignal s mOwn = noopResult s ∧
       (handleSignal s mJoin).sent =
         [{ type := .offer, «from» := "x", «to» := some "a"
            payload := some (.desc (createOffer "x")), nickname := none }] ∧
       (regGet (handleSignal s mJoin).state.peersRef "a").isSome = true) := by
  intro ls s mJoin mOwn
  have h := c1_join_triggers_single_offer s mJoin "x" rfl (by decide) rfl rfl
  have hown := c1_join_triggers_single_offer s mOwn "x" rfl (by decide) rfl rfl
  obtain ⟨p', hp1, hp2, _, _, _, _⟩ := h.2 (by decide) (Or.inl rfl)
  exact ⟨hown.1 rfl, hp2, by rw [hp1]; rfl⟩

/-- Claim C5, counterexample to the claim as stated: in the voice hook's
`onconnectionstatechange`, a transition to `disconnected` removes the
registry entry IMMEDIATELY — there is no grace window there. -/
theorem c5_counterexample_voice_removes_immediately :
    (let conn : RTCConn := { createPeerConnection 0 with connectionState := .disconnected }
     let p : Peer :=
       { id := "p", connection := conn, stream := none
         connectionType := none, nickname := none }
     let v : VoiceState :=
       { currentRoom := some "r", isConnected := true, isMuted := false
         isDeafened := false, peersRef := [("p", p)], localStream := none
         channel := some 1, userId := some "x", nextConnId := 1, db := [] }
     regGet v.peersRef "p" = some p ∧
       regGet (voiceConnStateChange v "p" .disconnected).peersRef "p" = none) := by
  decide

/-- Claim C5 (amended, true of the VIDEO hook only): on transition to
`disconnected` the entry is not removed immediately — the handler leaves
the state unchanged and schedules exactly one 5000 ms grace check — and
the grace check removes the entry exactly when it still exists and its
connection is still disconnected; otherwise it changes nothing. -/
theorem c5_video_grace_removal (s : CallState) (peerId : String) :
    (videoConnStateChange s peerId .disconnected).1 = s ∧
    (videoConnStateChange s peerId .disconnected).2.1 = [.graceRemoval 5000 peerId] ∧
    (∀ s2 : CallState, regGet s2.peersRef peerId = none → fireGraceRemoval s2 peerId = s2) ∧
    (∀ s2 : CallState, ∀ p : Peer, regGet s2.peersRef peerId = some p →
      p.connection.connectionState ≠ .disconnected → fireGraceRemoval s2 peerId = s2) ∧
    (∀ s2 : CallState, ∀ p : Peer, regGet s2.peersRef peerId = some p →
      p.connection.connectionState = .disconnected →
      regGet (fireGraceRemoval s2 peerId).peersRef peerId = none) := by
  refine ⟨rfl, rfl, ?_, ?_, ?_⟩
  · intro s2 h
    simp [fireGraceRemoval, h]
  · intro s2 p h hne
    simp [fireGraceRemoval, h, hne]
  · intro s2 p h hdis
    simp [fireGraceRemoval, h, hdis, removePeer, regGet_regDelete_self]

/-- Witness for C5 (amended) at a concrete disconnected entry. -/
theorem c5_witness :
    (let conn : RTCConn := { createPeerConnection 3 with connectionState := .disconnected }
     let p : Peer :=
       { id := "p", connection := conn, stream := none
         connectionType := none, nickname := none }
     let s : CallState := { initCall "x" with peersRef := [("p", p)] }
     (videoConnStateChange s "p" .disconnected).1 = s ∧
       regGet (fireGraceRemoval s "p").peersRef "p" = none) := by
  intro conn p s
  exact ⟨(c5_video_grace_removal s "p").1,
    (c5_video_grace_removal s "p").2.2.2.2 s p (by decide) rfl⟩

/-- Claim C6, counterexample to the claim as stated: in the voice hook,
a device-acquisition failure during `joinRoom` aborts cleanly but is
only written to the console — no user-facing notification is produced,
so the failure IS silently swallowed from the user's point of view. -/
theorem c6_counterexample_voice_failure_is_silent :
    (let v : VoiceState :=
       { currentRoom := none, isConnected := false, isMuted := false
         isDeafened := false, peersRef := [], localStream := none
         channel := none, userId := some "x", nextConnId := 0, db := [] }
     let r := joinRoom v "general" (.error ())
     r.1 = v ∧ r.2.1 = ([] : List Toast) ∧ r.2.2 = ["Error joining voice room"]) := by
  decide

/-- Claim C6 (amended): if device acquisition fails during join, the
whole join aborts with no partial state in either hook — the state
(channel, streams, presence rows, peers, flags) is exactly as before —
and the video hook reports the failure to the user with an error toast,
while the voice hook only logs it to the console. -/
theorem c6_device_failure_aborts_join (s : CallState) (roomSlug : String)
    (v : VoiceState) (room : String) :
    (joinCall s roomSlug (.error ())).1 = s ∧
    (∀ u, s.userId = some u → u ≠ "" → roomSlug ≠ "" →
      (joinCall s roomSlug (.error ())).2 = [.loadingJoin, .deviceError]) ∧
    (joinRoom v room (.error ())).1 = v ∧
    (joinRoom v room (.error ())).2.1 = ([] : List Toast) ∧
    (∀ u, v.userId = some u → u ≠ "" →
      (joinRoom v room (.error ())).2.2 = ["Error joining voice room"]) := by
  refine ⟨?_, ?_, ?_, ?_, ?_⟩
  · unfold joinCall
    cases hu : s.userId with
    | none => rfl
    | some u =>
        by_cases h1 : u = ""
        · simp [h1]
        · by_cases h2 : roomSlug = "" <;> simp [h1, h2]
  · intro u hu h1 h2
    simp [joinCall, hu, h1, h2]
  · unfold joinRoom
    cases hu : v.userId with
    | none => rfl
    | some u => by_cases h1 : u = "" <;> simp [h1]
  · unfold joinRoom
    cases hu : v.userId with
    | none => rfl
    | some u => by_cases h1 : u = "" <;> simp [h1]
  · intro u hu h1
    simp [joinRoom, hu, h1]

/-- Witness for C6 (amended) at a concrete in-call state. -/
theorem c6_witness :
    (let s : CallState := initCall "x"
     let v : VoiceState :=
       { currentRoom := none, isConnected := false, isMuted := false
         isDeafened := false, peersRef := [], localStream := none
         channel := none, userId := some "x", nextConnId := 0, db := [] }
     (joinCall s "general" (.error ())).1 = s ∧
       (joinCall s "general" (.error ())).2 = [.loadingJoin, .deviceError] ∧
       (joinRoom v "general" (.error ())).2.1 = ([] : List Toast)) := by
  intro s v
  have h := c6_device_failure_aborts_join s "general" v "general"
  exact ⟨h.1, h.2.1 "x" rfl (by decide) (by decide), h.2.2.2.1⟩

/-! ### Sender-swap lemmas for screen share -/

/-- The source's video-sender predicate `s.track?.kind === "video"`. -/
def senderHasVideoTrack (sd : Sender) : Bool :=
  match sd.track with
  | some tr => decide (tr.kind = "video")
  | none => false

theorem mem_of_head?_eq_some {α : Type _} {l : List α} {a : α}
    (h : l.head? = some a) : a ∈ l := by
  cases l with
  | nil => exact Option.noConfusion h
  | cons x xs =>
      injection h with h
      subst h
      exact List.mem_cons_self x xs

theorem replaceFirstVideoTrack_length (l : List Sender) (t : Option Track) :
    (replaceFirstVideoTrack l t).length = l.length := by
  induction l with
  | nil => rfl
  | cons sd rest ih =>
      unfold replaceFirstVideoTrack
      cases htr : sd.track with
      | none => simp [ih]
      | some tr => by_cases hk : tr.kind = "video" <;> simp [hk, ih]

theorem replaceFirstVideoTrack_nonvideo (l : List Sender) (t : Option Track) (j : Nat)
    (h : ∀ sd, l[j]? = some sd → senderHasVideoTrack sd = false) :
    (replaceFirstVideoTrack l t)[j]? = l[j]? := by
  induction l generalizing j with
  | nil => rfl
  | cons sd rest ih =>
      unfold replaceFirstVideoTrack
      cases htr : sd.track with
      | some tr =>
          by_cases hk : tr.kind = "video"
          · cases j with
            | zero =>
                have hv := h sd (by simp)
                simp [senderHasVideoTrack, htr, hk] at hv
            | succ j => simp [hk]
          · cases j with
            | zero => simp [hk]
            | succ j =>
                simp only [if_neg hk, List.getElem?_cons_succ]
                exact ih j (fun sd' hsd' => h sd' (by simpa using hsd'))
      | none =>
          cases j with
          | zero => simp
          | succ j =>
              simp only [List.getElem?_cons_succ]
              exact ih j (fun sd' hsd' => h sd' (by simpa using hsd'))

theorem replaceFirstVideoTrack_has_some (l : List Sender) (t : Track)
    (h : ∃ sd ∈ l, senderHasVideoTrack sd = true) :
    ∃ sd ∈ replaceFirstVideoTrack l (some t), sd.track = some t := by
  induction l with
  | nil =>
      obtain ⟨sd, hmem, _⟩ := h
      cases hmem
  | cons sd rest ih =>
      unfold replaceFirstVideoTrack
      cases htr : sd.track with
      | some tr =>
          by_cases hk : tr.kind = "video"
          · exact ⟨{ track := some t }, by simp [hk], rfl⟩
          · obtain ⟨sd', hmem, hv⟩ := h
            rcases List.mem_cons.mp hmem with he | he
            · subst he
              simp [senderHasVideoTrack, htr, hk] at hv
            · obtain ⟨sd2, hmem2, heq2⟩ := ih ⟨sd', he, hv⟩
              exact ⟨sd2, by simp [hk, List.mem_cons]; right; exact hmem2, heq2⟩
      | none =>
          obtain ⟨sd', hmem, hv⟩ := h
          rcases List.mem_cons.mp hmem with he | he
          · subst he
            simp [senderHasVideoTrack, htr] at hv
          · obtain ⟨sd2, hmem2, heq2⟩ := ih ⟨sd', he, hv⟩
            exact ⟨sd2, by simp [List.mem_cons]; right; exact hmem2, heq2⟩

theorem swap_entry_props (r : Registry) (t : Option Track) (k : String) (p : Peer)
    (h : regGet r k = some p) :
    ∃ p2, regGet (swapVideoTrackAll r t) k = some p2 ∧
      p2.connection.connId = p.connection.connId ∧
      p2.connection.connectionState = p.connection.connectionState ∧
      p2.connection.signalingState = p.connection.signalingState ∧
      p2.connection.localDesc = p.connection.localDesc ∧
      p2.connection.remoteDesc = p.connection.remoteDesc ∧
      p2.connection.candidates = p.connection.candidates ∧
      p2.connection.senders = replaceFirstVideoTrack p.connection.senders t := by
  rw [regGet_swapVideoTrackAll, h]
  exact ⟨_, rfl, rfl, rfl, rfl, rfl, rfl, rfl, rfl⟩

theorem c9_entry_single (r : Registry) (st : Track) (_hstv : st.kind = "video")
    (k : String) (p : Peer) (h : regGet r k = some p) :
    ∃ pa, regGet (swapVideoTrackAll r (some st)) k = some pa ∧
      pa.connection.connId = p.connection.connId ∧
      pa.connection.connectionState = p.connection.connectionState ∧
      pa.connection.signalingState = p.connection.signalingState ∧
      pa.connection.localDesc = p.connection.localDesc ∧
      pa.connection.remoteDesc = p.connection.remoteDesc ∧
      pa.connection.candidates = p.connection.candidates ∧
      pa.connection.senders.length = p.connection.senders.length ∧
      (∀ j : Nat, (∀ sd, p.connection.senders[j]? = some sd →
          senderHasVideoTrack sd = false) →
        pa.connection.senders[j]? = p.connection.senders[j]?) ∧
      ((∃ sd ∈ p.connection.senders, senderHasVideoTrack sd = true) →
        ∃ sd ∈ pa.connection.senders, sd.track = some st) := by
  obtain ⟨pa, hpa, c1, c2, c3, c4, c5, c6, hsend⟩ := swap_entry_props r (some st) k p h
  refine ⟨pa, hpa, c1, c2, c3, c4, c5, c6, ?_, ?_, ?_⟩
  · rw [hsend]
    exact replaceFirstVideoTrack_length _ _
  · intro j hj
    rw [hsend]
    exact replaceFirstVideoTrack_nonvideo _ _ j hj
  · intro hex
    rw [hsend]
    exact replaceFirstVideoTrack_has_some _ st hex

/-- Claim C9: invoking `startScreenShare()` and then `stopScreenShare()`
never closes, removes, or recreates any existing peer connection: the
registry's key set is unchanged, every entry keeps its connection with
the same identity and negotiated state, the only per-connection change
is the track carried by the outgoing video sender (screen track in,
camera track back; a no-op when the video sender or the camera track is
absent), and non-video senders are untouched. -/
theorem c9_screen_share_preserves_connections (s : CallState) (u : String) (ch : Nat)
    (screen : Stream) (st : Track)
    (hu : s.userId = some u) (h1 : u ≠ "") (hch : s.channel = some ch)
    (hst : (screen.tracks.filter (fun t : Track => t.kind = "video")).head? = some st) :
    (let a := (startScreenShare s (.ok screen)).1
     let b := (stopScreenShare a).1
     regKeys a.peersRef = regKeys s.peersRef ∧
     regKeys b.peersRef = regKeys s.peersRef ∧
     a.isScreenSharing = true ∧ b.isScreenSharing = false ∧
     (∀ k p, regGet s.peersRef k = some p →
       ∃ pa pb, regGet a.peersRef k = some pa ∧ regGet b.peersRef k = some pb ∧
         pa.connection.connId = p.connection.connId ∧
         pb.connection.connId = p.connection.connId ∧
         pb.connection.connectionState = p.connection.connectionState ∧
         pb.connection.signalingState = p.connection.signalingState ∧
         pb.connection.localDesc = p.connection.localDesc ∧
         pb.connection.remoteDesc = p.connection.remoteDesc ∧
         pb.connection.candidates = p.connection.candidates ∧
         pa.connection.senders.length = p.connection.senders.length ∧
         pb.connection.senders.length = p.connection.senders.length ∧
         (∀ j : Nat, (∀ sd, p.connection.senders[j]? = some sd →
             senderHasVideoTrack sd = false) →
           pa.connection.senders[j]? = p.connection.senders[j]? ∧
           pb.connection.senders[j]? = p.connection.senders[j]?) ∧
         ((∃ sd ∈ p.connection.senders, senderHasVideoTrack sd = true) →
           (∃ sd ∈ pa.connection.senders, sd.track = some st) ∧
           ∀ ls vt, s.localStream = some ls →
             (ls.tracks.filter (fun t : Track => t.kind = "video")).head? = some vt →
             ∃ sd ∈ pb.connection.senders, sd.track = some vt))) := by
  intro a b
  have hstv : st.kind = "video" := by
    have hmem := mem_of_head?_eq_some hst
    exact of_decide_eq_true (List.mem_filter.mp hmem).2
  have ha : a = { s with
      screenStream := some screen,
      isScreenSharing := true,
      peersRef := swapVideoTrackAll s.peersRef (some st) } := by
    show (startScreenShare s (.ok screen)).1 = _
    simp [startScreenShare, hu, hch, h1, hst]
  have hkeysA : regKeys a.peersRef = regKeys s.peersRef := by
    rw [ha]
    exact regKeys_swapVideoTrackAll _ _
  cases hcase : s.localStream with
  | none =>
      have hb : b = { s with
          screenStream := none,
          isScreenSharing := false,
          peersRef := swapVideoTrackAll s.peersRef (some st) } := by
        show (stopScreenShare a).1 = _
        rw [ha]
        simp [stopScreenShare, hcase]
      refine ⟨hkeysA, by rw [hb]; exact regKeys_swapVideoTrackAll _ _,
        by rw [ha], by rw [hb], ?_⟩
      intro k p hp
      obtain ⟨pa, hpa, c1, c2, c3, c4, c5, c6, clen, hnv, hvid⟩ :=
        c9_entry_single s.peersRef st hstv k p hp
      refine ⟨pa, pa, by rw [ha]; exact hpa, by rw [hb]; exact hpa,
        c1, c1, c2, c3, c4, c5, c6, clen, clen, ?_, ?_⟩
      · intro j hj
        exact ⟨hnv j hj, hnv j hj⟩
      · intro hex
        refine ⟨hvid hex, ?_⟩
        intro ls vt hls _
        exact Option.noConfusion hls
  | some ls =>
      cases hvt : (ls.tracks.filter (fun t : Track => t.kind = "video")).head? with
      | none =>
          have hb : b = { s with
              screenStream := none,
              isScreenSharing := false,
              peersRef := swapVideoTrackAll s.peersRef (some st),
              localStream := some ls } := by
            show (stopScreenShare a).1 = _
            rw [ha]
            simp [stopScreenShare, hcase, hvt]
          refine ⟨hkeysA, by rw [hb]; exact regKeys_swapVideoTrackAll _ _,
            by rw [ha], by rw [hb], ?_⟩
          intro k p hp
          obtain ⟨pa, hpa, c1, c2, c3, c4, c5, c6, clen, hnv, hvid⟩ :=
            c9_entry_single s.peersRef st hstv k p hp
          refine ⟨pa, pa, by rw [ha]; exact hpa, by rw [hb]; exact hpa,
            c1, c1, c2, c3, c4, c5, c6, clen, clen, ?_, ?_⟩
          · intro j hj
            exact ⟨hnv j hj, hnv j hj⟩
          · intro hex
            refine ⟨hvid hex, ?_⟩
            intro ls' vt hls hvt'
            injection hls with hls
            subst hls
            rw [hvt] at hvt'
            exact Option.noConfusion hvt'
      | some vt =>
          have hvtv : vt.kind = "video" := by
            have hmem := mem_of_head?_eq_some hvt
            exact of_decide_eq_true (List.mem_filter.mp hmem).2
          have hb : b = { s with
              screenStream := none,
              isScreenSharing := false,
              peersRef := swapVideoTrackAll (swapVideoTrackAll s.peersRef (some st)) (some vt),
              localStream := some ls } := by
            show (stopScreenShare a).1 = _
            rw [ha]
            simp [stopScreenShare, hcase, hvt]
          refine ⟨hkeysA,
            by rw [hb]; rw [regKeys_swapVideoTrackAll, regKeys_swapVideoTrackAll],
            by rw [ha], by rw [hb], ?_⟩
          intro k p hp
          obtain ⟨pa, hpa, c1, c2, c3, c4, c5, c6, clen, hnv, hvid⟩ :=
            c9_entry_single s.peersRef st hstv k p hp
          obtain ⟨pb, hpb, d1, d2, d3, d4, d5, d6, dlen, hnv2, hvid2⟩ :=
            c9_entry_single (swapVideoTrackAll s.peersRef (some st)) vt hvtv k pa hpa
          refine ⟨pa, pb, by rw [ha]; exact hpa, by rw [hb]; exact hpb,
            c1, d1.trans c1, d2.trans c2, d3.trans c3, d4.trans c4, d5.trans c5,
            d6.trans c6, clen, dlen.trans clen, ?_, ?_⟩
          · intro j hj
            have h1j := hnv j hj
            have hj' : ∀ sd, pa.connection.senders[j]? = some sd →
                senderHasVideoTrack sd = false := by
              intro sd hsd
              exact hj sd (h1j ▸ hsd)
            exact ⟨h1j, (hnv2 j hj').trans h1j⟩
          · intro hex
            refine ⟨hvid hex, ?_⟩
            intro ls' vt' hls hvt'
            injection hls with hls
            subst hls
            rw [hvt] at hvt'
            injection hvt' with hvt'
            subst hvt'
            obtain ⟨sdA, hmemA, htrA⟩ := hvid hex
            exact hvid2 ⟨sdA, hmemA, by simp [senderHasVideoTrack, htrA, hstv]⟩

/-- Witness for C9 at a concrete one-peer state with a camera video
track and a screen video track. -/
theorem c9_witness :
    (let cam : Track := { id := 1, kind := "video" }
     let ls : Stream := { sid := 0, tracks := [{ id := 0, kind := "audio" }, cam] }
     let scr : Track := { id := 9, kind := "video" }
     let screen : Stream := { sid := 5, tracks := [scr] }
     let conn : RTCConn :=
       { createPeerConnection 0 with
           senders := [{ track := some { id := 0, kind := "audio" } }, { track := some cam }] }
     let p : Peer :=
       { id := "a", connection := conn, stream := none
         connectionType := none, nickname := none }
     let s : CallState :=
       { initCall "x" with
           isInCall := true,
           channel := some 1,
           localStream := some ls,
           peersRef := [("a", p)] }
     let a := (startScreenShare s (.ok screen)).1
     let b := (stopScreenShare a).1
     regKeys b.peersRef = regKeys s.peersRef ∧
       ∃ pa pb, regGet a.peersRef "a" = some pa ∧ regGet b.peersRef "a" = some pb ∧
         pb.connection.connId = p.connection.connId ∧
         (∃ sd ∈ pa.connection.senders, sd.track = some scr)) := by
  intro cam ls scr screen conn p s a b
  have h := c9_screen_share_preserves_connections s "x" 1 screen scr rfl (by decide) rfl rfl
  obtain ⟨_, hk2, _, _, hent⟩ := h
  obtain ⟨pa, pb, hpa, hpb, _, hpbid, _, _, _, _, _, _, _, _, hvid⟩ :=
    hent "a" p rfl
  refine ⟨hk2, pa, pb, hpa, hpb, hpbid, ?_⟩
  exact (hvid ⟨{ track := some cam }, by simp [conn], by decide⟩).1

/-! ### Step lemmas for the registry invariant (C2) -/

theorem join_offer_state_decomp (s : CallState) (m : SignalMessage) (u : String)
    (hu : s.userId = some u) (h1 : u ≠ "") (h2 : m.«from» ≠ u)
    (hto : m.«to» = none ∨ m.«to» = some u) (hty : m.type = .join ∨ m.type = .offer) :
    ∃ fs : List (RTCConn → RTCConn),
      (∀ f ∈ fs, ∀ c, (f c).connId = c.connId) ∧
      (handleSignal s m).state =
        fs.foldl (fun st f => updateConn st m.«from» f) (ensurePeerWithTracks s m.«from») := by
  rcases hty with hty | hty
  · have hp1 : handlePhase1 s m =
        (noopResult (ensurePeerWithTracks s m.«from»), some (.joinK m.«from» u)) :=
      (handlePhase1_eq_dispatch s m u hu h1 h2 hto).trans (by simp [handleDispatch, hty])
    have hall := handleSignal_eq_kont s m _ _ hp1
    refine ⟨[fun c => setLocalDescription c (createOffer u)], ?_, ?_⟩
    · intro f hf c
      rw [List.mem_singleton.mp hf]
      exact setLocalDescription_connId c (createOffer u)
    · rw [hall]
      simp only [noopResult, runKont, joinKont, List.foldl_cons, List.foldl_nil]
      cases hch2 : (updateConn (ensurePeerWithTracks s m.«from») m.«from»
          (fun c => setLocalDescription c (createOffer u))).channel with
      | none => simp [hch2]
      | some c0 => simp [hch2]
  · have hp1 : handlePhase1 s m =
        (noopResult (ensurePeerWithTracks s m.«from»), some (.offerK m.«from» u m.payload)) :=
      (handlePhase1_eq_dispatch s m u hu h1 h2 hto).trans (by simp [handleDispatch, hty])
    have hall := handleSignal_eq_kont s m _ _ hp1
    cases hpl : m.payload with
    | none =>
        refine ⟨[], ?_, ?_⟩
        · intro f hf
          cases hf
        · rw [hall]
          simp [runKont, offerKont, hpl, noopResult]
    | some pl =>
        cases pl with
        | desc d =>
            refine ⟨[fun c => setRemoteOffer c d,
                     fun c => setLocalDescription c (createAnswer u)], ?_, ?_⟩
            · intro f hf c
              rcases List.mem_cons.mp hf with he | he
              · rw [he]
                rfl
              · rw [List.mem_singleton.mp he]
                exact setLocalDescription_connId c (createAnswer u)
            · rw [hall]
              simp only [noopResult, runKont, offerKont, hpl, List.foldl_cons, List.foldl_nil]
              cases hch2 : (updateConn (updateConn (ensurePeerWithTracks s m.«from») m.«from»
                  (fun c => setRemoteOffer c d)) m.«from»
                  (fun c => setLocalDescription c (createAnswer u))).channel with
              | none => simp [hch2]
              | some c0 => simp [hch2]
        | cand c =>
            refine ⟨[], ?_, ?_⟩
            · intro f hf
              cases hf
            · rw [hall]
              simp [runKont, offerKont, hpl, noopResult]

theorem ensure_facts (s : CallState) (P : String) :
    (ensurePeerWithTracks s P).userId = s.userId ∧
    (regGet s.peersRef P = none →
      (∃ p, regGet (ensurePeerWithTracks s P).peersRef P = some p ∧
        p.connection.connId = s.nextConnId) ∧
      regKeyCount (ensurePeerWithTracks s P).peersRef P = regKeyCount s.peersRef P + 1 ∧
      (ensurePeerWithTracks s P).nextConnId = s.nextConnId + 1) ∧
    (∀ p0, regGet s.peersRef P = some p0 →
      (∃ p, regGet (ensurePeerWithTracks s P).peersRef P = some p ∧
        p.connection.connId = p0.connection.connId) ∧
      regKeyCount (ensurePeerWithTracks s P).peersRef P = regKeyCount s.peersRef P ∧
      (ensurePeerWithTracks s P).nextConnId = s.nextConnId) := by
  refine ⟨?_, ?_, ?_⟩
  · cases hget : regGet s.peersRef P with
    | none => rw [ensure_absent s P hget]
    | some p0 => rw [ensure_present s P p0 hget]
  · intro hget
    rw [ensure_absent s P hget]
    refine ⟨⟨_, regGet_regSet_self _ _ _, ?_⟩, ?_, rfl⟩
    · exact addLocalTracks_connId (createPeerConnection s.nextConnId) s.localStream
    · exact regKeyCount_regSet_absent _ _ _ hget
  · intro p0 hget
    rw [ensure_present s P p0 hget]
    refine ⟨⟨_, regGet_regSet_self _ _ _, ?_⟩, ?_, rfl⟩
    · exact addLocalTracks_connId p0.connection s.localStream
    · exact regKeyCount_regSet_present _ _ _ (by rw [hget]; rfl)

theorem updateConn_foldl_facts (fs : List (RTCConn → RTCConn)) (k : String) (cid : Nat)
    (hfs : ∀ f ∈ fs, ∀ c, (f c).connId = c.connId) :
    ∀ t : CallState,
    (∃ p, regGet t.peersRef k = some p ∧ p.connection.connId = cid) →
    (fs.foldl (fun st f => updateConn st k f) t).userId = t.userId ∧
    (fs.foldl (fun st f => updateConn st k f) t).nextConnId = t.nextConnId ∧
    regKeyCount (fs.foldl (fun st f => updateConn st k f) t).peersRef k =
      regKeyCount t.peersRef k ∧
    (∃ p, regGet (fs.foldl (fun st f => updateConn st k f) t).peersRef k = some p ∧
      p.connection.connId = cid) := by
  induction fs with
  | nil =>
      intro t hp
      exact ⟨rfl, rfl, rfl, hp⟩
  | cons f fs ih =>
      intro t hp
      obtain ⟨p, hgp, hcid⟩ := hp
      have hupd := updateConn_present t k p f hgp
      have hstep : (∃ q, regGet (updateConn t k f).peersRef k = some q ∧
          q.connection.connId = cid) := by
        rw [hupd]
        exact ⟨_, regGet_regSet_self _ _ _,
          (hfs f (List.mem_cons_self f fs) p.connection).trans hcid⟩
      have hrest := ih (fun g hg => hfs g (List.mem_cons_of_mem f hg)) (updateConn t k f) hstep
      rw [List.foldl_cons] at *
      refine ⟨hrest.1.trans (by rw [hupd]), hrest.2.1.trans (by rw [hupd]), ?_, hrest.2.2.2⟩
      refine hrest.2.2.1.trans ?_
      rw [hupd]
      exact regKeyCount_regSet_present _ _ _ (by rw [hgp]; rfl)

theorem join_offer_step (s : CallState) (m : SignalMessage) (u : String)
    (hu : s.userId = some u) (h1 : u ≠ "") (h2 : m.«from» ≠ u)
    (hto : m.«to» = none ∨ m.«to» = some u) (hty : m.type = .join ∨ m.type = .offer) :
    (handleSignal s m).state.userId = s.userId ∧
    (regGet s.peersRef m.«from» = none →
      (∃ p, regGet (handleSignal s m).state.peersRef m.«from» = some p ∧
        p.connection.connId = s.nextConnId) ∧
      regKeyCount (handleSignal s m).state.peersRef m.«from» =
        regKeyCount s.peersRef m.«from» + 1 ∧
      (handleSignal s m).state.nextConnId = s.nextConnId + 1) ∧
    (∀ p0, regGet s.peersRef m.«from» = some p0 →
      (∃ p, regGet (handleSignal s m).state.peersRef m.«from» = some p ∧
        p.connection.connId = p0.connection.connId) ∧
      regKeyCount (handleSignal s m).state.peersRef m.«from» =
        regKeyCount s.peersRef m.«from» ∧
      (handleSignal s m).state.nextConnId = s.nextConnId) := by
  obtain ⟨fs, hfs, hdecomp⟩ := join_offer_state_decomp s m u hu h1 h2 hto hty
  obtain ⟨heU, heAbs, hePres⟩ := ensure_facts s m.«from»
  cases hget : regGet s.peersRef m.«from» with
  | none =>
      obtain ⟨⟨p, hgp, hcid⟩, hcount, hnext⟩ := heAbs hget
      have hfold := updateConn_foldl_facts fs m.«from» s.nextConnId hfs
        (ensurePeerWithTracks s m.«from») ⟨p, hgp, hcid⟩
      refine ⟨?_, ?_, ?_⟩
      · rw [hdecomp, hfold.1, heU]
      · intro _
        rw [hdecomp]
        exact ⟨hfold.2.2.2, hfold.2.2.1.trans hcount, hfold.2.1.trans hnext⟩
      · intro p0 hp0
        exact Option.noConfusion hp0
  | some p0 =>
      obtain ⟨⟨p, hgp, hcid⟩, hcount, hnext⟩ := hePres p0 hget
      have hfold := updateConn_foldl_facts fs m.«from» p0.connection.connId hfs
        (ensurePeerWithTracks s m.«from») ⟨p, hgp, hcid⟩
      refine ⟨?_, ?_, ?_⟩
      · rw [hdecomp, hfold.1, heU]
      · intro hn
        exact Option.noConfusion hn
      · intro q0 hq0
        injection hq0 with hq0
        subst hq0
        rw [hdecomp]
        exact ⟨hfold.2.2.2, hfold.2.2.1.trans hcount, hfold.2.1.trans hnext⟩

theorem c2_preserve (u P : String) (cid N : Nat) (h1 : u ≠ "") (hP : P ≠ u)
    (msgs : List SignalMessage) :
    ∀ s : CallState, s.userId = some u →
    (∀ m ∈ msgs, m.«from» = P ∧ (m.type = .join ∨ m.type = .offer) ∧
      (m.«to» = none ∨ m.«to» = some u)) →
    (∃ p, regGet s.peersRef P = some p ∧ p.connection.connId = cid) →
    regKeyCount s.peersRef P = 1 → s.nextConnId = N →
    (processSignals s msgs).userId = some u ∧
    (∃ p, regGet (processSignals s msgs).peersRef P = some p ∧
      p.connection.connId = cid) ∧
    regKeyCount (processSignals s msgs).peersRef P = 1 ∧
    (processSignals s msgs).nextConnId = N := by
  induction msgs with
  | nil =>
      intro s hs _ hp hc hN
      exact ⟨hs, hp, hc, hN⟩
  | cons m rest ih =>
      intro s hs hm hp hc hN
      obtain ⟨hmP, hmty, hmto⟩ := hm m (List.mem_cons_self m rest)
      obtain ⟨p0, hp0, hcid0⟩ := hp
      have hstep := join_offer_step s m u hs h1 (by rw [hmP]; exact hP) hmto hmty
      rw [hmP] at hstep
      obtain ⟨⟨p1, hp1, hcid1⟩, hc1, hN1⟩ := hstep.2.2 p0 hp0
      have hproc : processSignals s (m :: rest) =
          processSignals (handleSignal s m).state rest := by
        simp [processSignals]
      rw [hproc]
      exact ih (handleSignal s m).state (hstep.1.trans hs)
        (fun m2 hm2 => hm m2 (List.mem_cons_of_mem m hm2))
        ⟨p1, hp1, hcid1.trans hcid0⟩ (hc1.trans hc) (hN1.trans hN)

/-- Claim C2: for every sequence of `join`/`offer` messages received from
the same peer identity P (before any `leave` from P), the registry holds
exactly one entry for P: the first message creates the connection and
every later message reuses that entry and its connection — exactly one
connection is ever created for P. -/
theorem c2_single_entry_per_identity (s : CallState) (u P : String)
    (msgs : List SignalMessage)
    (hu : s.userId = some u) (h1 : u ≠ "") (hP : P ≠ u)
    (hinit : regGet s.peersRef P = none)
    (hne : msgs ≠ [])
    (hmsgs : ∀ m ∈ msgs, m.«from» = P ∧ (m.type = .join ∨ m.type = .offer) ∧
      (m.«to» = none ∨ m.«to» = some u)) :
    regKeyCount (processSignals s msgs).peersRef P = 1 ∧
    (∃ p, regGet (processSignals s msgs).peersRef P = some p ∧
      p.connection.connId = s.nextConnId) ∧
    (processSignals s msgs).nextConnId = s.nextConnId + 1 := by
  cases msgs with
  | nil => exact absurd rfl hne
  | cons m rest =>
      obtain ⟨hmP, hmty, hmto⟩ := hmsgs m (List.mem_cons_self m rest)
      have hstep := join_offer_step s m u hu h1 (by rw [hmP]; exact hP) hmto hmty
      rw [hmP] at hstep
      obtain ⟨⟨p1, hp1, hcid1⟩, hc1, hN1⟩ := hstep.2.1 hinit
      have hcount1 : regKeyCount (handleSignal s m).state.peersRef P = 1 := by
        rw [hc1, regKeyCount_eq_zero_of_get_none s.peersRef P hinit]
      have hproc : processSignals s (m :: rest) =
          processSignals (handleSignal s m).state rest := by
        simp [processSignals]
      rw [hproc]
      have hrest := c2_preserve u P s.nextConnId (s.nextConnId + 1) h1 hP rest
        (handleSignal s m).state (hstep.1.trans hu)
        (fun m2 hm2 => hmsgs m2 (List.mem_cons_of_mem m hm2))
        ⟨p1, hp1, hcid1⟩ hcount1 hN1
      exact ⟨hrest.2.2.1, hrest.2.1, hrest.2.2.2⟩

/-- Witness for C2: user x processes join, duplicate join, then offer,
all from a; the registry ends with exactly one entry for a, carrying the
connection created by the first join. -/
theorem c2_witness :
    (let s : CallState := { initCall "x" with isInCall := true, channel := some 1 }
     let mJoin : SignalMessage :=
       { type := .join, «from» := "a", «to» := none, payload := none, nickname := none }
     let mOffer : SignalMessage :=
       { type := .offer, «from» := "a", «to» := some "x"
         payload := some (.desc { sdpType := .offer, origin := "a" }), nickname := none }
     regKeyCount (processSignals s [mJoin, mJoin, mOffer]).peersRef "a" = 1 ∧
       (∃ p, regGet (processSignals s [mJoin, mJoin, mOffer]).peersRef "a" = some p ∧
         p.connection.connId = 0) ∧
       (processSignals s [mJoin, mJoin, mOffer]).nextConnId = 1) := by
  intro s mJoin mOffer
  have h := c2_single_entry_per_identity s "x" "a" [mJoin, mJoin, mOffer] rfl
    (by decide) (by decide) rfl (by decide) ?_
  · exact h
  · intro m hm
    simp only [List.mem_cons, List.not_mem_nil, or_false] at hm
    rcases hm with rfl | rfl | rfl
    · exact ⟨rfl, Or.inl rfl, Or.inl rfl⟩
    · exact ⟨rfl, Or.inl rfl, Or.inl rfl⟩
    · exact ⟨rfl, Or.inr rfl, Or.inr rfl⟩

/-! ### Interleaving lemmas (C4) -/

theorem updateConn_fields (s : CallState) (k : String) (f : RTCConn → RTCConn) :
    (updateConn s k f).isInCall = s.isInCall ∧ (updateConn s k f).channel = s.channel := by
  cases hget : regGet s.peersRef k with
  | none => rw [updateConn_absent s k f hget]; exact ⟨rfl, rfl⟩
  | some p => rw [updateConn_present s k p f hget]; exact ⟨rfl, rfl⟩

theorem ensure_fields (s : CallState) (P : String) :
    (ensurePeerWithTracks s P).isInCall = s.isInCall ∧
    (ensurePeerWithTracks s P).channel = s.channel := by
  cases hget : regGet s.peersRef P with
  | none => rw [ensure_absent s P hget]; exact ⟨rfl, rfl⟩
  | some p => rw [ensure_present s P p hget]; exact ⟨rfl, rfl⟩

theorem joinKont_fst (s : CallState) (src u : String) :
    (joinKont s src u).1 =
      updateConn s src (fun c => setLocalDescription c (createOffer u)) := by
  unfold joinKont
  cases hch : (updateConn s src (fun c => setLocalDescription c (createOffer u))).channel with
  | none => simp [hch]
  | some c0 => simp [hch]

theorem offerKont_fst_desc (s : CallState) (src u : String) (d : SessionDesc) :
    (offerKont s src u (some (.desc d))).1 =
      updateConn (updateConn s src (fun c => setRemoteOffer c d)) src
        (fun c => setLocalDescription c (createAnswer u)) := by
  unfold offerKont
  cases hch : (updateConn (updateConn s src (fun c => setRemoteOffer c d)) src
      (fun c => setLocalDescription c (createAnswer u))).channel with
  | none => simp [hch]
  | some c0 => simp [hch]

theorem runKont_fields (s : CallState) (k : Kont) :
    ((runKont s k).1).isInCall = s.isInCall ∧ ((runKont s k).1).channel = s.channel := by
  cases k with
  | joinK src u =>
      show ((joinKont s src u).1).isInCall = s.isInCall ∧
        ((joinKont s src u).1).channel = s.channel
      rw [joinKont_fst]
      exact updateConn_fields s src _
  | offerK src u pl =>
      show ((offerKont s src u pl).1).isInCall = s.isInCall ∧
        ((offerKont s src u pl).1).channel = s.channel
      cases pl with
      | none => exact ⟨rfl, rfl⟩
      | some p =>
          cases p with
          | cand c => exact ⟨rfl, rfl⟩
          | desc d =>
              rw [offerKont_fst_desc]
              have h1 := updateConn_fields s src (fun c => setRemoteOffer c d)
              have h2 := updateConn_fields (updateConn s src (fun c => setRemoteOffer c d))
                src (fun c => setLocalDescription c (createAnswer u))
              exact ⟨h2.1.trans h1.1, h2.2.trans h1.2⟩

theorem runKont_state_of_empty (s : CallState) (k : Kont) (h : s.peersRef = []) :
    (runKont s k).1 = s := by
  have hget : ∀ key : String, regGet s.peersRef key = none := by
    intro key
    rw [h]
    rfl
  cases k with
  | joinK src u =>
      show (joinKont s src u).1 = s
      rw [joinKont_fst]
      exact updateConn_absent s src _ (hget src)
  | offerK src u pl =>
      show (offerKont s src u pl).1 = s
      cases pl with
      | none => rfl
      | some p =>
          cases p with
          | cand c => rfl
          | desc d =>
              rw [offerKont_fst_desc, updateConn_absent s src _ (hget src),
                updateConn_absent s src _ (hget src)]

theorem handlePhase1_fields (s : CallState) (m : SignalMessage) :
    ((handlePhase1 s m).1.state).isInCall = s.isInCall ∧
    ((handlePhase1 s m).1.state).channel = s.channel := by
  rcases handlePhase1_eq s m with hp | ⟨u, _, _, _, hp⟩
  · rw [hp]
    exact ⟨rfl, rfl⟩
  · rw [hp]
    unfold handleDispatch
    cases m.type with
    | join => exact ensure_fields s m.«from»
    | offer => exact ensure_fields s m.«from»
    | answer =>
        unfold answerCase
        cases hget : regGet s.peersRef m.«from» with
        | none => exact ⟨rfl, rfl⟩
        | some p =>
            by_cases hst : p.connection.signalingState = .stable
            · simp only [hst, if_pos]
              exact ⟨rfl, rfl⟩
            · simp only [if_neg hst]
              cases m.payload with
              | none => exact ⟨rfl, rfl⟩
              | some pl =>
                  cases pl with
                  | desc d =>
                      cases hsr : setRemoteAnswer p.connection d with
                      | ok c => simp [hsr]
                      | error e => simp [hsr]
                  | cand c => exact ⟨rfl, rfl⟩
    | iceCandidate =>
        have h := iceCase_props s m
        exact ⟨h.2.2.2.1, h.2.2.2.2⟩
    | leave =>
        unfold removePeer
        cases hget : regGet s.peersRef m.«from» with
        | none => exact ⟨rfl, rfl⟩
        | some p => exact ⟨rfl, rfl⟩
    | screenShareStart => exact ⟨rfl, rfl⟩
    | screenShareStop => exact ⟨rfl, rfl⟩

theorem joinCall_inv (c : CallState) (slug : String) (stream : Stream)
    (hinv : c.channel.isSome = c.isInCall ∧ (c.isInCall = false → c.peersRef = [])) :
    (joinCall c slug (.ok stream)).1.channel.isSome = (joinCall c slug (.ok stream)).1.isInCall ∧
    ((joinCall c slug (.ok stream)).1.isInCall = false →
      (joinCall c slug (.ok stream)).1.peersRef = []) := by
  unfold joinCall
  cases hu : c.userId with
  | none => exact hinv
  | some u =>
      by_cases h1 : u = ""
      · simp only [if_pos h1]
        exact hinv
      · by_cases h2 : slug = ""
        · simp only [if_neg h1, if_pos h2]
          exact hinv
        · simp [h1, h2]

theorem reach_invariant (ts : TraceState) (h : Reach ts) :
    ts.call.channel.isSome = ts.call.isInCall ∧
    (ts.call.isInCall = false → ts.call.peersRef = []) := by
  induction h with
  | init u => exact ⟨rfl, fun _ => rfl⟩
  | @step ts0 hr e ih =>
      cases e with
      | joinEv slug stream => exact joinCall_inv ts0.call slug stream ih
      | deliver m =>
          cases hch : ts0.call.channel with
          | none =>
              have hstep : stepEv ts0 (.deliver m) = ts0 := by
                simp [stepEv, hch]
              rw [hstep]
              exact ih
          | some ch0 =>
              have hstep : stepEv ts0 (.deliver m) =
                  { call := (handlePhase1 ts0.call m).1.state
                    pending := ts0.pending ++ (handlePhase1 ts0.call m).2.toList } := by
                simp [stepEv, hch]
              rw [hstep]
              have hin : ts0.call.isInCall = true := by
                rw [← ih.1, hch]
                rfl
              have hf := handlePhase1_fields ts0.call m
              refine ⟨?_, ?_⟩
              · show (handlePhase1 ts0.call m).1.state.channel.isSome =
                  (handlePhase1 ts0.call m).1.state.isInCall
                rw [hf.1, hf.2, hch, hin]
                rfl
              · intro habs
                show (handlePhase1 ts0.call m).1.state.peersRef = []
                rw [show ((handlePhase1 ts0.call m).1.state).isInCall = false from habs] at hf
                rw [hin] at hf
                exact nomatch hf.1
      | resume i =>
          cases hk : ts0.pending[i]? with
          | none =>
              have hstep : stepEv ts0 (.resume i) = ts0 := by
                simp [stepEv, hk]
              rw [hstep]
              exact ih
          | some k =>
              have hstep : stepEv ts0 (.resume i) =
                  { call := (runKont ts0.call k).1
                    pending := ts0.pending.eraseIdx i } := by
                simp [stepEv, hk]
              rw [hstep]
              have hf := runKont_fields ts0.call k
              refine ⟨?_, ?_⟩
              · show (runKont ts0.call k).1.channel.isSome = (runKont ts0.call k).1.isInCall
                rw [hf.1, hf.2, ih.1]
              · intro habs
                show (runKont ts0.call k).1.peersRef = []
                have habs2 : ts0.call.isInCall = false := by
                  rw [← hf.1]
                  exact habs
                have hempty := ih.2 habs2
                rw [runKont_state_of_empty ts0.call k hempty]
                exact hempty
      | leaveEv =>
          have hstep : stepEv ts0 .leaveEv =
              { call := (leaveCall ts0.call).1, pending := ts0.pending } := by
            simp [stepEv]
          rw [hstep]
          unfold leaveCall
          exact ⟨rfl, fun _ => rfl⟩

/-- Claim C4: no peer registry entry exists outside the active session
state: in every reachable interleaving of deliveries, continuation
resumptions and leaves, whenever the session is not in a call the
registry is empty, and resuming any in-flight handler continuation after
leave() neither re-inserts an entry nor changes the state at all. -/
theorem c4_no_registry_outside_active (ts : TraceState) (h : Reach ts) :
    (ts.call.isInCall = false → ts.call.peersRef = []) ∧
    (∀ k : Kont, ts.call.isInCall = false → ((runKont ts.call k).1).peersRef = []) := by
  have hinv := reach_invariant ts h
  refine ⟨hinv.2, ?_⟩
  intro k hfalse
  have hempty := hinv.2 hfalse
  rw [runKont_state_of_empty ts.call k hempty]
  exact hempty

/-- Witness for C4: user x joins, a `join` from p is delivered (its
continuation still pending), then leaveCall runs; the registry is empty
and resuming the pending continuation leaves it empty. -/
theorem c4_witness :
    (let e1 : Ev := .joinEv "room" { sid := 0, tracks := [] }
     let e2 : Ev := .deliver
       { type := .join, «from» := "p", «to» := none, payload := none, nickname := none }
     let ts := stepEv (stepEv (stepEv (initTrace "x") e1) e2) .leaveEv
     ts.call.isInCall = false ∧ ts.call.peersRef = [] ∧
       ((runKont ts.call (.joinK "p" "x")).1).peersRef = []) := by
  intro e1 e2 ts
  have h : Reach ts :=
    Reach.step (Reach.step (Reach.step (Reach.init "x") e1) e2) .leaveEv
  have hc := c4_no_registry_outside_active ts h
  have hfalse : ts.call.isInCall = false := by decide
  exact ⟨hfalse, hc.1 hfalse, hc.2 (.joinK "p" "x") hfalse⟩

end Efthon
